import Mathlib

/-!
# mtlib: arena allocator and growable array

A shallow embedding of `mtlib_common.h`, `mt_allocators.h` and `mt_dsa.h`.

Conventions of the embedding.

* `size_t` and `usize` are 64-bit (LP64; `DEFAULT_ALIGNMENT` is then 16).  A machine
  word is a natural number below `WORD`; every C operation on words is followed by an
  explicit reduction modulo `WORD` (`uadd`, `usub`, `umul`).
* A pointer is the natural number of its address, the null pointer is `0`.
* A function that mutates an object through a pointer returns the new object next to
  its C return value.
-/

namespace Mtlib

/-! ## Machine words -/

/-- Number of values of `size_t` and `usize`. -/
def WORD : Nat := 2 ^ 64

/-- Addition of two `size_t` values. -/
def uadd (x y : Nat) : Nat := (x + y) % WORD

/-- Subtraction of two `size_t` values (of words `x, y < WORD`). -/
def usub (x y : Nat) : Nat := (x + WORD - y) % WORD

/-- Multiplication of two `size_t` values. -/
def umul (x y : Nat) : Nat := (x * y) % WORD

/-- The value of `sizeof(void *)`. -/
def SIZEOF_PTR : Nat := 8

/-- The macro `DEFAULT_ALIGNMENT`, `(sizeof(void *) * 2)`. -/
def DEFAULT_ALIGNMENT : Nat := SIZEOF_PTR * 2

/-- The macro `is_power_of_two(x)`, `(x != 0 && (x & (x - 1)) == 0)`, on a `size_t`. -/
def is_power_of_two (x : Nat) : Bool :=
  x != 0 && (x &&& usub x 1) == 0

/-! ## Arena allocator (`mt_allocators.h`) -/

/-- The struct `Arena`; `base` is the address of the buffer. -/
structure Arena where
  base : Nat
  size : Nat
  offset : Nat
  committed : Nat
deriving DecidableEq, Repr

/-- All four fields are machine words. -/
def Arena.inRange (a : Arena) : Prop :=
  a.base < WORD ∧ a.size < WORD ∧ a.offset < WORD ∧ a.committed < WORD

instance (a : Arena) : Decidable a.inRange := by
  unfold Arena.inRange
  infer_instance

/-- The function `align_forward(ptr, alignment)`. -/
def align_forward (ptr alignment : Nat) : Nat :=
  if !is_power_of_two alignment then
    0
  else
    let p := ptr
    let a := alignment
    let modulo := p &&& usub a 1
    if modulo != 0 then uadd p (usub a modulo) else p

/-- The local `offset` of `arena_alloc_aligned` just before the bound check: the aligned
cursor address minus the base, as a `usize`. -/
def aligned_offset (a : Arena) (alignment : Nat) : Nat :=
  let curr_ptr := uadd a.base a.offset
  let offset := align_forward curr_ptr alignment
  usub offset a.base

/-- The function `arena_alloc_aligned(a, size, alignment)`: the returned pointer and the
arena after the call.  The local `offset` is a `usize` that may have wrapped, so the
address `(u8 *)a->base + offset` is taken in the 64-bit address space. -/
def arena_alloc_aligned (a : Arena) (size alignment : Nat) : Nat × Arena :=
  let offset := aligned_offset a alignment
  if uadd offset size > a.size then
    (0, a)
  else
    let committed := uadd a.committed size
    let ptr := uadd a.base offset
    (ptr, { a with committed := committed, offset := uadd offset size })

/-- The function `arena_alloc(size, context)`, with `context` pointing to the arena `a`. -/
def arena_alloc (size : Nat) (a : Arena) : Nat × Arena :=
  if size == 0 then (0, a) else arena_alloc_aligned a size DEFAULT_ALIGNMENT

/-- The function `arena_free(size, ptr, context)`: nothing is touched, null is returned. -/
def arena_free (_size _ptr : Nat) (a : Arena) : Nat × Arena := (0, a)

/-- The function `arena_free_all(context)`, with `context` pointing to the arena `a`. -/
def arena_free_all (a : Arena) : Arena :=
  { a with offset := 0, committed := 0 }

/-- The function `arena_init(buffer, size)`. -/
def arena_init (buffer size : Nat) : Arena :=
  { base := buffer, size := size, offset := 0, committed := 0 }

/-! ## Allocator interface (`mtlib_common.h`) and memory

The growable array lives in a flat data memory.  A cell of the memory holds one object
whole (a header field, an element) at the address of its first byte; `memcpy` of `n` bytes
carries the cells of `n` consecutive addresses.  Pointer arithmetic on object pointers
(`h + 1`, `a[i]`) is exact.  The functions behind an `Allocator` act on a state of their
own (an arena, the bookkeeping of the host heap) and not on the data memory. -/

/-- The struct `Allocator`: the function pointers `alloc(size, context)` and
`free(size, ptr, context)`, the latter possibly null, and the context.  Both functions
return a pointer and act on the allocator state `σ`. -/
structure Allocator (σ : Type) where
  alloc : Nat → Nat → σ → Nat × σ
  free : Option (Nat → Nat → Nat → σ → Nat × σ)
  context : Nat

/-- A call made through a function pointer of the `Allocator` at address `allocator`. -/
inductive Call where
  | alloc (allocator size context : Nat)
  | free (allocator size ptr context : Nat)
deriving DecidableEq, Repr

/-- The machine state the array functions run in: the data memory, the `Allocator` objects
by address, the state the allocator functions act on, and the calls made so far through
allocator function pointers, oldest first. -/
structure Heap (σ : Type) where
  mem : Nat → Nat
  allocators : Nat → Allocator σ
  state : σ
  calls : List Call

/-- Assignment through a pointer: `*addr = v`. -/
def store (m : Nat → Nat) (addr v : Nat) : Nat → Nat :=
  fun x => if x = addr then v else m x

/-- The libc call `memcpy(dst, src, n)`. -/
def memcpy (m : Nat → Nat) (dst src n : Nat) : Nat → Nat :=
  fun x => if dst ≤ x ∧ x < dst + n then m (src + (x - dst)) else m x

/-! ## Growable array (`mt_dsa.h`) -/

/-- The value of `sizeof(Array_Header)`: three `size_t` and one pointer. -/
def SIZEOF_HEADER : Nat := 32

/-- Byte offset of the field `length` in `Array_Header`. -/
def OFF_LENGTH : Nat := 0

/-- Byte offset of the field `capacity` in `Array_Header`. -/
def OFF_CAPACITY : Nat := 8

/-- Byte offset of the field `a` (the `Allocator *`) in `Array_Header`. -/
def OFF_A : Nat := 24

/-- The macro `ARRAY_INITIAL_CAPACITY`. -/
def ARRAY_INITIAL_CAPACITY : Nat := 16

/-- The macro `array_header(a)`, `((Array_Header *)(a) - 1)`. -/
def array_header (a : Nat) : Nat := a - SIZEOF_HEADER

/-- The macro `array_length(a)`. -/
def array_length {σ : Type} (a : Nat) (w : Heap σ) : Nat :=
  w.mem (array_header a + OFF_LENGTH)

/-- The macro `array_capacity(a)`. -/
def array_capacity {σ : Type} (a : Nat) (w : Heap σ) : Nat :=
  w.mem (array_header a + OFF_CAPACITY)

/-- The field `array_header(a)->a`, the address of the array's `Allocator`. -/
def array_allocator {σ : Type} (a : Nat) (w : Heap σ) : Nat :=
  w.mem (array_header a + OFF_A)

/-- The address `&a[i]` for elements of `elem_size` bytes. -/
def array_slot (elem_size a i : Nat) : Nat := a + i * elem_size

/-- The element `a[i]` for elements of `elem_size` bytes. -/
def array_get {σ : Type} (elem_size a i : Nat) (w : Heap σ) : Nat :=
  w.mem (array_slot elem_size a i)

/-- The function `array_init(item_size, capacity, a)`: the returned pointer and the state
after the call. -/
def array_init {σ : Type} (item_size capacity a : Nat) (w : Heap σ) : Nat × Heap σ :=
  let size := uadd (umul item_size capacity) SIZEOF_HEADER
  let r := (w.allocators a).alloc size 0 w.state
  let h := r.1
  let w1 : Heap σ := { w with state := r.2, calls := w.calls ++ [Call.alloc a size 0] }
  if h != 0 then
    let m1 := store w1.mem (h + OFF_CAPACITY) capacity
    let m2 := store m1 (h + OFF_LENGTH) 0
    let m3 := store m2 (h + OFF_A) a
    (h + SIZEOF_HEADER, { w1 with mem := m3 })
  else
    (0, w1)

/-- The loop `while (new_capacity < desired_capacity) new_capacity *= 2;` of
`array_ensure_capacity`, run for at most `fuel` tests of its condition; `none` when the
loop has not ended by then. -/
def grow_capacity : Nat → Nat → Nat → Option Nat
  | 0, _, _ => none
  | fuel + 1, new_capacity, desired_capacity =>
    if new_capacity < desired_capacity then
      grow_capacity fuel (umul new_capacity 2) desired_capacity
    else
      some new_capacity

/-- The function `array_ensure_capacity(a, item_count, item_size)`: the returned pointer
and the state after the call, or `none` when the doubling loop has not ended within
`fuel` tests. -/
def array_ensure_capacity {σ : Type} (fuel a item_count item_size : Nat) (w : Heap σ) :
    Option (Nat × Heap σ) :=
  let h := array_header a
  let length := w.mem (h + OFF_LENGTH)
  let capacity := w.mem (h + OFF_CAPACITY)
  let desired_capacity := uadd length item_count
  if capacity < desired_capacity then
    match grow_capacity fuel (umul capacity 2) desired_capacity with
    | none => none
    | some new_capacity =>
      let new_size := uadd SIZEOF_HEADER (umul new_capacity item_size)
      let al := w.mem (h + OFF_A)
      let r := (w.allocators al).alloc new_size (w.allocators al).context w.state
      let new_h := r.1
      let w1 : Heap σ :=
        { w with state := r.2,
                 calls := w.calls ++ [Call.alloc al new_size (w.allocators al).context] }
      if new_h != 0 then
        let old_size := uadd SIZEOF_HEADER (umul (w1.mem (h + OFF_LENGTH)) item_size)
        let m1 := memcpy w1.mem new_h h old_size
        let al2 := m1 (h + OFF_A)
        let w2 : Heap σ :=
          match (w1.allocators al2).free with
          | some free =>
            { w1 with mem := m1,
                      state := (free old_size h (w1.allocators al2).context w1.state).2,
                      calls := w1.calls ++
                        [Call.free al2 old_size h (w1.allocators al2).context] }
          | none => { w1 with mem := m1 }
        let m2 := store w2.mem (new_h + OFF_CAPACITY) new_capacity
        some (new_h + SIZEOF_HEADER, { w2 with mem := m2 })
      else
        some (0, w1)
  else
    some (h + SIZEOF_HEADER, w)

/-- The macro `array_append(a, v)` for a pointer `a` to elements of `elem_size` bytes
(`sizeof(*a)`) and a value expression of `v_size` bytes (`sizeof(v)`); `v` is the value
after conversion to the element type.  The result is the new value of `a`, the value of
the macro (the address of the written slot) and the state; `none` when
`array_ensure_capacity` does not return or returns null (the macro then reads the header
of the null pointer). -/
def array_append {σ : Type} (fuel elem_size v_size a v : Nat) (w : Heap σ) :
    Option (Nat × Nat × Heap σ) :=
  match array_ensure_capacity fuel a 1 v_size w with
  | none => none
  | some (a1, w1) =>
    if a1 = 0 then
      none
    else
      let m1 := store w1.mem (array_slot elem_size a1 (w1.mem (array_header a1 + OFF_LENGTH))) v
      let length := m1 (array_header a1 + OFF_LENGTH)
      let m2 := store m1 (array_header a1 + OFF_LENGTH) (uadd length 1)
      some (a1, array_slot elem_size a1 length, { w1 with mem := m2 })

/-- The macro `array_remove(a, i)` for a pointer `a` to elements of `elem_size` bytes
(`sizeof(*a)`) and an index converted to `size_t`. -/
def array_remove {σ : Type} (elem_size a i : Nat) (w : Heap σ) : Heap σ :=
  let h := array_header a
  let length := w.mem (h + OFF_LENGTH)
  if i = usub length 1 then
    { w with mem := store w.mem (h + OFF_LENGTH) (usub length 1) }
  else if length > 1 then
    let ptr := array_slot elem_size a i
    let last := array_slot elem_size a (usub length 1)
    let m1 := store w.mem (h + OFF_LENGTH) (usub length 1)
    { w with mem := memcpy m1 ptr last elem_size }
  else
    w

/-- The macro `array_pop_back(a)`. -/
def array_pop_back {σ : Type} (a : Nat) (w : Heap σ) : Heap σ :=
  let h := array_header a
  { w with mem := store w.mem (h + OFF_LENGTH) (usub (w.mem (h + OFF_LENGTH)) 1) }

/-- Successive `array_append(a, v)` for the values of a list, as in the first loop of
`main`. -/
def array_append_all {σ : Type} (fuel elem_size v_size : Nat) :
    List Nat → Nat → Heap σ → Option (Nat × Heap σ)
  | [], a, w => some (a, w)
  | v :: vs, a, w =>
    match array_append fuel elem_size v_size a v w with
    | none => none
    | some (a1, _, w1) => array_append_all fuel elem_size v_size vs a1 w1

/-! ## The default allocator of `mt_dsa.h` on a host heap

The host `malloc` is modelled with unlimited memory: the state is the next free address,
and a request is served there. -/

/-- The function `array_alloc(bytes, context)`, `malloc(bytes)`. -/
def array_alloc (bytes _context : Nat) (next : Nat) : Nat × Nat :=
  (next, next + bytes)

/-- The function `array_free(bytes, ptr, context)`, `free(ptr)` and a null result. -/
def array_free (_bytes _ptr _context : Nat) (next : Nat) : Nat × Nat :=
  (0, next)

/-- The global `allocator`, `{ array_alloc, array_free, 0 }`. -/
def allocator : Allocator Nat :=
  { alloc := array_alloc, free := some array_free, context := 0 }

/-- A state to run `main` in: zeroed memory, the global `allocator` (at every address), and
a host heap starting at address 4096. -/
def main_start : Heap Nat :=
  { mem := fun _ => 0, allocators := fun _ => allocator, state := 4096, calls := [] }

/-- The macro `array(T, a)`, `array_init(sizeof(T), ARRAY_INITIAL_CAPACITY, a)`. -/
def array {σ : Type} (sizeof_T a : Nat) (w : Heap σ) : Nat × Heap σ :=
  array_init sizeof_T ARRAY_INITIAL_CAPACITY a w

/-- The array pointer and the state of `main` after its first loop: `array(u8, &allocator)`
followed by `array_append(my_array, i)` for the `size_t` values `i` from 0 to 5. -/
def main_appended : Nat × Heap Nat :=
  let r := array 1 64 main_start
  (array_append_all 65 1 8 [0, 1, 2, 3, 4, 5] r.1 r.2).getD r

/-! ## Sequences of arena operations -/

/-- One call on an arena: `arena_alloc`, `arena_alloc_aligned`, `arena_free` or
`arena_free_all`, with its arguments. -/
inductive ArenaOp where
  | alloc (size : Nat)
  | alloc_aligned (size alignment : Nat)
  | free (size ptr : Nat)
  | free_all
deriving DecidableEq, Repr

/-- The arena after one call. -/
def arena_step (a : Arena) : ArenaOp → Arena
  | ArenaOp.alloc size => (arena_alloc size a).2
  | ArenaOp.alloc_aligned size alignment => (arena_alloc_aligned a size alignment).2
  | ArenaOp.free size ptr => (arena_free size ptr a).2
  | ArenaOp.free_all => arena_free_all a

/-- The arena after a sequence of calls, first call first. -/
def arena_run (a : Arena) (ops : List ArenaOp) : Arena :=
  ops.foldl arena_step a

/-! ## The arena behind the `Allocator` interface

The state of the arena allocator functions is the set of `Arena` objects by address. -/

/-- The function `arena_alloc(size, context)` on the arena objects in memory; `context` is
dereferenced as an `Arena *`.  Where no arena lives at `context` the C call reads through
an invalid pointer; the model then returns null and changes nothing. -/
def arena_alloc_at (size context : Nat) (arenas : Nat → Option Arena) :
    Nat × (Nat → Option Arena) :=
  match arenas context with
  | some a => ((arena_alloc size a).1,
      fun p => if p = context then some (arena_alloc size a).2 else arenas p)
  | none => (0, arenas)

/-- The function `arena_free(size, ptr, context)` on the arena objects in memory. -/
def arena_free_at (_size _ptr _context : Nat) (arenas : Nat → Option Arena) :
    Nat × (Nat → Option Arena) :=
  (0, arenas)

/-- The macro `arena_alloc_init(a)`, `(Allocator) { arena_alloc, arena_free, a }`. -/
def arena_alloc_init (a : Nat) : Allocator (Nat → Option Arena) :=
  { alloc := arena_alloc_at, free := some arena_free_at, context := a }

/-- A state with one arena over a 1024-byte buffer at address 8192, the `Arena` object at
address 512, and the `Allocator` built by `arena_alloc_init(&arena)` (at every address). -/
def arena_start : Heap (Nat → Option Arena) :=
  { mem := fun _ => 0,
    allocators := fun _ => arena_alloc_init 512,
    state := fun p => if p = 512 then some (arena_init 8192 1024) else none,
    calls := [] }

/-! ## Further states on the host heap -/

/-- An `Allocator` on an exhausted host heap: `malloc` returns null. -/
def exhausted : Allocator Nat :=
  { alloc := fun _ _ next => (0, next), free := some array_free, context := 0 }

/-- An array of two 4-byte elements 7 and 8 at capacity 2: `array_init(4, 2, &allocator)`
followed by two `array_append` of 4-byte values. -/
def full_array : Nat × Heap Nat :=
  let r := array_init 4 2 64 main_start
  (array_append_all 65 4 4 [7, 8] r.1 r.2).getD r

/-- The state of `main` after `array_remove(my_array, 2)`. -/
def main_removed : Nat × Heap Nat :=
  (main_appended.1, array_remove 1 main_appended.1 2 main_appended.2)

/-- The state of `full_array` with the host heap exhausted. -/
def full_array_exhausted : Heap Nat :=
  Heap.mk full_array.2.mem (fun _ => exhausted) full_array.2.state full_array.2.calls

/-! ## Facts about machine words and powers of two -/

theorem WORD_eq : WORD = 18446744073709551616 := by
  norm_num [WORD]

theorem usub_of_le {x y : Nat} (hx : x < WORD) (hy : y ≤ x) : usub x y = x - y := by
  unfold usub
  rw [WORD_eq] at *
  omega

/-- A nonzero number that shares no bit with its predecessor is a power of two. -/
theorem exists_pow_of_land_pred (x : Nat) (hx : x ≠ 0) (h : x &&& (x - 1) = 0) :
    ∃ k, x = 2 ^ k := by
  induction x using Nat.strong_induction_on with
  | _ x ih =>
    rcases Nat.even_or_odd' x with ⟨y, rfl | rfl⟩
    · have hy : y ≠ 0 := by omega
      have h2 : (2 * y &&& (2 * y - 1)) / 2 = y &&& (y - 1) := by
        rw [Nat.and_div_two]
        congr 1 <;> omega
      rw [h] at h2
      obtain ⟨k, hk⟩ := ih y (by omega) hy h2.symm
      exact ⟨k + 1, by rw [hk, pow_succ]; ring⟩
    · have h2 : ((2 * y + 1) &&& (2 * y + 1 - 1)) / 2 = y &&& y := by
        rw [Nat.and_div_two]
        congr 1 <;> omega
      rw [h, Nat.and_self] at h2
      exact ⟨0, by simp; omega⟩

/-- The macro `is_power_of_two` decides, on machine words, being a power of two. -/
theorem is_power_of_two_iff (x : Nat) (hx : x < WORD) :
    is_power_of_two x = true ↔ ∃ k, x = 2 ^ k := by
  unfold is_power_of_two
  constructor
  · intro h
    simp only [Bool.and_eq_true, bne_iff_ne, ne_eq, beq_iff_eq] at h
    obtain ⟨h0, h1⟩ := h
    rw [usub_of_le hx (by omega)] at h1
    exact exists_pow_of_land_pred x h0 h1
  · rintro ⟨k, rfl⟩
    have hpos : 0 < 2 ^ k := Nat.two_pow_pos k
    simp only [Bool.and_eq_true, bne_iff_ne, ne_eq, beq_iff_eq]
    refine ⟨by omega, ?_⟩
    rw [usub_of_le hx (by omega), Nat.and_pow_two_sub_one_eq_mod, Nat.mod_self]

theorem pow_dvd_WORD {k : Nat} (hk : 2 ^ k < WORD) : 2 ^ k ∣ WORD := by
  have hk64 : k < 64 := by
    by_contra hge
    have : (2:Nat) ^ 64 ≤ 2 ^ k := Nat.pow_le_pow_right (by norm_num) (by omega)
    unfold WORD at hk
    omega
  exact pow_dvd_pow 2 (by omega)

/-- On a power-of-two alignment `align_forward` keeps an aligned address and otherwise adds
the distance to the next multiple, reduced to a machine word. -/
theorem align_forward_pow (p k : Nat) (hk : 2 ^ k < WORD) :
    align_forward p (2 ^ k) =
      if p % 2 ^ k = 0 then p else (p + (2 ^ k - p % 2 ^ k)) % WORD := by
  have hpow : is_power_of_two (2 ^ k) = true := (is_power_of_two_iff _ hk).2 ⟨k, rfl⟩
  have hpos : 0 < 2 ^ k := Nat.two_pow_pos k
  have hmod : p % 2 ^ k < 2 ^ k := Nat.mod_lt _ hpos
  unfold align_forward
  simp only [hpow, Bool.not_true, Bool.false_eq_true, if_false]
  rw [usub_of_le hk (by omega), Nat.and_pow_two_sub_one_eq_mod]
  by_cases h0 : p % 2 ^ k = 0
  · simp [h0]
  · simp only [bne_iff_ne, ne_eq, h0, not_false_eq_true, if_true, if_false]
    rw [usub_of_le hk (by omega)]
    rfl

theorem align_forward_lt (p a : Nat) (hp : p < WORD) : align_forward p a < WORD := by
  unfold align_forward
  have hW : 0 < WORD := by rw [WORD_eq]; norm_num
  split
  · exact hW
  · dsimp only
    split
    · exact Nat.mod_lt _ hW
    · exact hp

/-- The distance added by `align_forward` leads to a multiple of the alignment. -/
theorem dvd_add_sub_mod (p a : Nat) (ha : 0 < a) : a ∣ p + (a - p % a) := by
  have hmod : p % a < a := Nat.mod_lt _ ha
  have h := Nat.div_add_mod p a
  refine ⟨p / a + 1, ?_⟩
  rw [Nat.mul_add, Nat.mul_one]
  omega

theorem align_forward_dvd (p k : Nat) (hk : 2 ^ k < WORD) :
    2 ^ k ∣ align_forward p (2 ^ k) := by
  rw [align_forward_pow p k hk]
  split
  · exact Nat.dvd_of_mod_eq_zero (by assumption)
  · exact (Nat.dvd_mod_iff (pow_dvd_WORD hk)).2 (dvd_add_sub_mod p _ (Nat.two_pow_pos k))

/-- Every multiple of `a` that is at least `p` is at least `p` rounded up to `a`. -/
theorem round_up_le_multiple (p a m : Nat) (ha : 0 < a) (hdvd : a ∣ m) (hpm : p ≤ m)
    (h0 : p % a ≠ 0) : p + (a - p % a) ≤ m := by
  obtain ⟨c, rfl⟩ := hdvd
  have hmod : p % a < a := Nat.mod_lt _ ha
  have h := Nat.div_add_mod p a
  have hc : p / a < c := by
    by_contra hle
    have : a * c ≤ a * (p / a) := Nat.mul_le_mul_left a (by omega)
    omega
  have : a * (p / a + 1) ≤ a * c := Nat.mul_le_mul_left a hc
  rw [Nat.mul_add, Nat.mul_one] at this
  omega

/-- When a multiple of the alignment at or above `p` is a machine word, `align_forward`
returns the least such multiple. -/
theorem align_forward_least (p k : Nat) (hk : 2 ^ k < WORD)
    (hfit : ∃ m, m < WORD ∧ 2 ^ k ∣ m ∧ p ≤ m) :
    2 ^ k ∣ align_forward p (2 ^ k) ∧ p ≤ align_forward p (2 ^ k) ∧
      ∀ m, 2 ^ k ∣ m → p ≤ m → align_forward p (2 ^ k) ≤ m := by
  have hpos : 0 < 2 ^ k := Nat.two_pow_pos k
  refine ⟨align_forward_dvd p k hk, ?_⟩
  rw [align_forward_pow p k hk]
  by_cases h0 : p % 2 ^ k = 0
  · simp only [h0, if_true]
    exact ⟨le_refl _, fun m _ h => h⟩
  · simp only [h0, if_false]
    obtain ⟨m0, hm0, hd0, hp0⟩ := hfit
    have hle := round_up_le_multiple p _ m0 hpos hd0 hp0 h0
    rw [Nat.mod_eq_of_lt (by omega)]
    exact ⟨by omega, fun m hd hp => round_up_le_multiple p _ m hpos hd hp h0⟩

/-- A nonzero result of `align_forward` on a power-of-two alignment did not wrap. -/
theorem align_forward_ne_zero_fits (p k : Nat) (hp : p < WORD) (hk : 2 ^ k < WORD)
    (hne : align_forward p (2 ^ k) ≠ 0) : ∃ m, m < WORD ∧ 2 ^ k ∣ m ∧ p ≤ m := by
  have hpos : 0 < 2 ^ k := Nat.two_pow_pos k
  rw [align_forward_pow p k hk] at hne
  by_cases h0 : p % 2 ^ k = 0
  · exact ⟨p, hp, Nat.dvd_of_mod_eq_zero h0, le_refl _⟩
  · simp only [h0, if_false] at hne
    have hmod : p % 2 ^ k < 2 ^ k := Nat.mod_lt _ hpos
    have hd := dvd_add_sub_mod p _ hpos
    refine ⟨p + (2 ^ k - p % 2 ^ k), ?_, hd, by omega⟩
    by_contra hge
    -- the sum is a multiple of the alignment in `[WORD, 2 * WORD)`, so it is `WORD`
    obtain ⟨c, hc⟩ := pow_dvd_WORD hk
    obtain ⟨d, hd⟩ := hd
    have hlt : p + (2 ^ k - p % 2 ^ k) < WORD + 2 ^ k := by omega
    rw [hd, hc, ← Nat.mul_succ] at hlt
    have hdc : d < c + 1 := Nat.lt_of_mul_lt_mul_left hlt
    have hcd : c ≤ d := by
      by_contra hlt2
      have : 2 ^ k * d < 2 ^ k * c := Nat.mul_lt_mul_of_pos_left (by omega) hpos
      omega
    have hdc2 : d = c := by omega
    apply hne
    rw [hd, hdc2, ← hc, Nat.mod_self]

theorem not_pow_of_is_power_of_two_false (x : Nat) (hx : x < WORD)
    (h : is_power_of_two x = false) : ¬ ∃ k, x = 2 ^ k := by
  intro hk
  rw [(is_power_of_two_iff x hx).2 hk] at h
  exact Bool.noConfusion h

theorem align_forward_not_pow (p alignment : Nat) (hal : alignment < WORD)
    (hnot : ¬ ∃ k, alignment = 2 ^ k) : align_forward p alignment = 0 := by
  have hfalse : is_power_of_two alignment = false := by
    cases h : is_power_of_two alignment
    · rfl
    · exact absurd ((is_power_of_two_iff alignment hal).1 h) hnot
  unfold align_forward
  simp [hfalse]

/-- Adding back the base to the aligned offset gives the aligned address. -/
theorem uadd_usub_cancel (b x : Nat) (hb : b < WORD) (hx : x < WORD) :
    uadd b (usub x b) = x := by
  unfold uadd usub
  rw [WORD_eq] at *
  omega

theorem uadd_aligned_offset (a : Arena) (alignment : Nat) (hb : a.base < WORD) :
    uadd a.base (aligned_offset a alignment) =
      align_forward (uadd a.base a.offset) alignment := by
  unfold aligned_offset
  exact uadd_usub_cancel _ _ hb
    (align_forward_lt _ _ (Nat.mod_lt _ (by rw [WORD_eq]; norm_num)))

/-! ## Claims on the arena allocator -/

/-- C1, counterexample: at the address `2^64 - 1` and the alignment 8 the result of
`align_forward` is 0, which is not at or above the address. -/
theorem align_forward_wraps_at_top :
    ¬ (∀ p a : Nat, p < WORD → a < WORD → (∃ k, a = 2 ^ k) →
        a ∣ align_forward p a ∧ p ≤ align_forward p a ∧
          ∀ m, a ∣ m → p ≤ m → align_forward p a ≤ m) := by
  intro h
  have h2 := (h (2 ^ 64 - 1) 8 (by decide) (by decide) ⟨3, rfl⟩).2.1
  revert h2
  decide

/-- C1, amended: for a power-of-two alignment `a` and an address `p` such that some multiple
of `a` at or above `p` is a machine word, `align_forward p a` is the smallest multiple of
`a` that is at least `p`. -/
theorem align_forward_smallest_multiple (p a : Nat) (ha : a < WORD)
    (hpow : ∃ k, a = 2 ^ k) (hfit : ∃ m, m < WORD ∧ a ∣ m ∧ p ≤ m) :
    a ∣ align_forward p a ∧ p ≤ align_forward p a ∧
      ∀ m, a ∣ m → p ≤ m → align_forward p a ≤ m := by
  obtain ⟨k, rfl⟩ := hpow
  exact align_forward_least p k ha hfit

/-- C1, witness: the address 74 and the alignment 8 of the documentation, with 80 as a
representable multiple. -/
theorem align_forward_smallest_multiple_witness :
    8 ∣ align_forward 74 8 ∧ 74 ≤ align_forward 74 8 ∧
      ∀ m, 8 ∣ m → 74 ≤ m → align_forward 74 8 ≤ m :=
  align_forward_smallest_multiple 74 8 (by decide) ⟨3, rfl⟩
    ⟨80, by decide, by decide, by decide⟩

/-- C2, failing input: in a 64-byte arena at address 4096 whose cursor is at 16 after one
16-byte allocation, a request of `2^64 - 16` bytes with alignment 16 has aligned offset 16,
the exact sum `16 + (2^64 - 16)` exceeds 64, and yet the call returns the address 4112
and rewinds the cursor to 0. -/
theorem arena_alloc_aligned_accepts_oversized :
    arena_alloc_aligned (arena_init 4096 64) 16 16 = (4096, ⟨4096, 64, 16, 16⟩) ∧
    aligned_offset ⟨4096, 64, 16, 16⟩ 16 = 16 ∧
    64 < 16 + (2 ^ 64 - 16) ∧
    arena_alloc_aligned ⟨4096, 64, 16, 16⟩ (2 ^ 64 - 16) 16 = (4112, ⟨4096, 64, 0, 0⟩) := by
  decide

/-- C3, failing input: on a fresh 64-byte arena at address 4096, a request of 4100 bytes
with the alignment 3 returns the null pointer and leaves the cursor at 4 and the
committed counter at 4100. -/
theorem arena_alloc_aligned_null_but_mutated :
    arena_alloc_aligned (arena_init 4096 64) 4100 3 = (0, ⟨4096, 64, 4, 4100⟩) := by
  decide

/-- C4: for a power-of-two alignment and a request that fits (aligned offset `k` plus size
within the buffer size), `arena_alloc_aligned` returns the address `base + k`, which is
the aligned cursor address and a multiple of the alignment; afterwards `offset = k + size`,
`committed` is the former `committed` plus `size` (in `size_t` arithmetic, and exactly
when that sum is a machine word), and `base` and `size` are unchanged. -/
theorem arena_alloc_aligned_success (a : Arena) (size alignment : Nat)
    (ha : a.inRange) (hal : alignment < WORD) (hpow : ∃ k, alignment = 2 ^ k)
    (hfit : aligned_offset a alignment + size ≤ a.size) :
    (arena_alloc_aligned a size alignment).1 = (a.base + aligned_offset a alignment) % WORD ∧
    (a.base + aligned_offset a alignment < WORD →
      (arena_alloc_aligned a size alignment).1 = a.base + aligned_offset a alignment) ∧
    (arena_alloc_aligned a size alignment).1 =
      align_forward ((a.base + a.offset) % WORD) alignment ∧
    alignment ∣ (arena_alloc_aligned a size alignment).1 ∧
    (arena_alloc_aligned a size alignment).2.offset = aligned_offset a alignment + size ∧
    (arena_alloc_aligned a size alignment).2.committed = (a.committed + size) % WORD ∧
    (a.committed + size < WORD →
      (arena_alloc_aligned a size alignment).2.committed = a.committed + size) ∧
    (arena_alloc_aligned a size alignment).2.base = a.base ∧
    (arena_alloc_aligned a size alignment).2.size = a.size := by
  obtain ⟨hb, hs, -, -⟩ := ha
  have hlt : aligned_offset a alignment + size < WORD := by omega
  have hsum : uadd (aligned_offset a alignment) size = aligned_offset a alignment + size :=
    Nat.mod_eq_of_lt hlt
  have hres : arena_alloc_aligned a size alignment =
      (uadd a.base (aligned_offset a alignment),
        { a with committed := uadd a.committed size,
                 offset := uadd (aligned_offset a alignment) size }) := by
    unfold arena_alloc_aligned
    simp only [hsum]
    rw [if_neg (by omega)]
  have hptr := uadd_aligned_offset a alignment hb
  obtain ⟨k, rfl⟩ := hpow
  rw [hres]
  refine ⟨rfl, fun h => Nat.mod_eq_of_lt h, hptr, ?_, hsum, rfl,
    fun h => Nat.mod_eq_of_lt h, rfl, rfl⟩
  show 2 ^ k ∣ uadd a.base (aligned_offset a (2 ^ k))
  rw [hptr]
  exact align_forward_dvd _ k hal

/-- C4, witness: the first allocation of the 64-byte scenario, 40 bytes at alignment 16 in
a fresh arena at address 4096. -/
theorem arena_alloc_aligned_success_witness :
    (arena_alloc_aligned (arena_init 4096 64) 40 16).1 = 4096 ∧
    (arena_alloc_aligned (arena_init 4096 64) 40 16).2.offset = 40 ∧
    (arena_alloc_aligned (arena_init 4096 64) 40 16).2.committed = 40 := by
  have h := arena_alloc_aligned_success (arena_init 4096 64) 40 16
    (by decide) (by decide) ⟨4, rfl⟩ (by decide)
  exact ⟨h.1.trans (by decide), h.2.2.2.2.1.trans (by decide),
    h.2.2.2.2.2.1.trans (by decide)⟩

/-- C5: for an alignment that is not a power of two (0 included), `arena_alloc_aligned`
returns the null pointer, whatever the arena and the size. -/
theorem arena_alloc_aligned_bad_alignment (a : Arena) (size alignment : Nat)
    (hbase : a.base < WORD) (hal : alignment < WORD) (hnot : ¬ ∃ k, alignment = 2 ^ k) :
    (arena_alloc_aligned a size alignment).1 = 0 := by
  have hptr := uadd_aligned_offset a alignment hbase
  rw [align_forward_not_pow _ _ hal hnot] at hptr
  unfold arena_alloc_aligned
  dsimp only
  split
  · rfl
  · exact hptr

/-- C5, witness: the alignment 3 on the arena of the 64-byte scenario. -/
theorem arena_alloc_aligned_bad_alignment_witness :
    (arena_alloc_aligned (arena_init 4096 64) 4100 3).1 = 0 :=
  arena_alloc_aligned_bad_alignment (arena_init 4096 64) 4100 3 (by decide) (by decide)
    (not_pow_of_is_power_of_two_false 3 (by decide) (by decide))

/-- C6: for an alignment that is not a power of two (0 included), `align_forward` returns
0 at every address. -/
theorem align_forward_bad_alignment (p alignment : Nat) (hal : alignment < WORD)
    (hnot : ¬ ∃ k, alignment = 2 ^ k) : align_forward p alignment = 0 :=
  align_forward_not_pow p alignment hal hnot

/-- C6, witness: the alignment 0 at the address 74. -/
theorem align_forward_bad_alignment_witness : align_forward 74 0 = 0 :=
  align_forward_bad_alignment 74 0 (by decide)
    (not_pow_of_is_power_of_two_false 0 (by decide) (by decide))

/-- C7: `arena_free_all` zeroes `offset` and `committed` and keeps `base` and `size`, which
is the arena `arena_init` builds on the same buffer; and an allocation made right after it
(by `arena_alloc_aligned`, or by `arena_alloc`, which then is `arena_alloc_aligned` at the
default alignment) that returns a non-null address returns the address of the same call on
the freshly initialised arena, namely the smallest multiple of the alignment at or above
the base (the base itself when the base is aligned). -/
theorem arena_free_all_then_alloc (a : Arena) (size alignment : Nat)
    (hbase : a.base < WORD) (hal : alignment < WORD) :
    (arena_free_all a).offset = 0 ∧ (arena_free_all a).committed = 0 ∧
    (arena_free_all a).base = a.base ∧ (arena_free_all a).size = a.size ∧
    arena_alloc_aligned (arena_free_all a) size alignment =
      arena_alloc_aligned (arena_init a.base a.size) size alignment ∧
    arena_alloc size (arena_free_all a) = arena_alloc size (arena_init a.base a.size) ∧
    ((arena_alloc size (arena_free_all a)).1 ≠ 0 →
      arena_alloc size (arena_free_all a) =
        arena_alloc_aligned (arena_free_all a) size DEFAULT_ALIGNMENT) ∧
    ((arena_alloc_aligned (arena_free_all a) size alignment).1 ≠ 0 →
      alignment ∣ (arena_alloc_aligned (arena_free_all a) size alignment).1 ∧
      a.base ≤ (arena_alloc_aligned (arena_free_all a) size alignment).1 ∧
      (∀ m, alignment ∣ m → a.base ≤ m →
        (arena_alloc_aligned (arena_free_all a) size alignment).1 ≤ m) ∧
      (alignment ∣ a.base →
        (arena_alloc_aligned (arena_free_all a) size alignment).1 = a.base)) := by
  refine ⟨rfl, rfl, rfl, rfl, rfl, rfl, ?_, ?_⟩
  · intro hne
    unfold arena_alloc at hne ⊢
    split
    · rename_i h0
      rw [if_pos h0] at hne
      exact absurd rfl hne
    · rfl
  intro hne
  have hcur : uadd (arena_free_all a).base (arena_free_all a).offset = a.base :=
    Nat.mod_eq_of_lt hbase
  have hptr := uadd_aligned_offset (arena_free_all a) alignment hbase
  rw [hcur] at hptr
  have hres : (arena_alloc_aligned (arena_free_all a) size alignment).1 =
      align_forward a.base alignment := by
    unfold arena_alloc_aligned at hne ⊢
    dsimp only at hne ⊢
    split
    · rename_i hgt
      rw [if_pos hgt] at hne
      exact absurd rfl hne
    · exact hptr
  rw [hres] at hne ⊢
  have hpow : ∃ k, alignment = 2 ^ k := by
    by_contra hnot
    exact hne (align_forward_not_pow _ _ hal hnot)
  obtain ⟨k, rfl⟩ := hpow
  obtain ⟨hd, hle, hmin⟩ :=
    align_forward_least a.base k hal (align_forward_ne_zero_fits a.base k hbase hal hne)
  exact ⟨hd, hle, hmin, fun hb => Nat.le_antisymm (hmin a.base hb (le_refl _)) hle⟩

/-- C7, witness: a used 64-byte arena at the unaligned address 4100, reset and asked for
8 bytes at alignment 16, hands out the address 4112. -/
theorem arena_free_all_then_alloc_witness :
    (arena_alloc_aligned (arena_free_all ⟨4100, 64, 40, 40⟩) 8 16).1 = 4112 ∧
    16 ∣ 4112 ∧ 4100 ≤ 4112 := by
  have h := arena_free_all_then_alloc ⟨4100, 64, 40, 40⟩ 8 16 (by decide) (by decide)
  have hr : (arena_alloc_aligned (arena_free_all ⟨4100, 64, 40, 40⟩) 8 16).1 = 4112 := by
    decide
  have h2 := h.2.2.2.2.2.2.2 (by rw [hr]; decide)
  rw [hr] at h2
  exact ⟨hr, h2.1, h2.2.1⟩


/-! ## Claims on the growable array -/

/-- What `array_init` does on every input: one call to the allocator's `alloc`, for
`item_size * capacity + sizeof(Array_Header)` bytes in `size_t` arithmetic; when the call
returns a region `h`, the result is `h + sizeof(Array_Header)` and the header at `h` has
`length = 0`, the requested capacity and the given allocator address; when the call
returns null, the result is null. -/
theorem array_init_modular {σ : Type} (item_size capacity a : Nat) (w : Heap σ) :
    (array_init item_size capacity a w).2.calls =
      w.calls ++ [Call.alloc a ((item_size * capacity % WORD + SIZEOF_HEADER) % WORD) 0] ∧
    (item_size * capacity + SIZEOF_HEADER < WORD →
      (array_init item_size capacity a w).2.calls =
        w.calls ++ [Call.alloc a (SIZEOF_HEADER + item_size * capacity) 0]) ∧
    (∀ h, ((w.allocators a).alloc
          ((item_size * capacity % WORD + SIZEOF_HEADER) % WORD) 0 w.state).1 = h →
      (h ≠ 0 →
        (array_init item_size capacity a w).1 = h + SIZEOF_HEADER ∧
        array_header (array_init item_size capacity a w).1 = h ∧
        array_length (array_init item_size capacity a w).1
          (array_init item_size capacity a w).2 = 0 ∧
        array_capacity (array_init item_size capacity a w).1
          (array_init item_size capacity a w).2 = capacity ∧
        array_allocator (array_init item_size capacity a w).1
          (array_init item_size capacity a w).2 = a) ∧
      (h = 0 → (array_init item_size capacity a w).1 = 0)) := by
  have hcalls : (array_init item_size capacity a w).2.calls =
      w.calls ++ [Call.alloc a ((item_size * capacity % WORD + SIZEOF_HEADER) % WORD) 0] := by
    unfold array_init
    dsimp only [uadd, umul]
    split <;> rfl
  refine ⟨hcalls, ?_, ?_⟩
  · intro hlt
    rw [hcalls]
    have h1 : item_size * capacity % WORD = item_size * capacity :=
      Nat.mod_eq_of_lt (by omega)
    rw [h1, Nat.mod_eq_of_lt hlt, Nat.add_comm]
  · intro h hh
    constructor
    · intro hne
      have hres : array_init item_size capacity a w =
          (h + SIZEOF_HEADER,
            { w with
              state := ((w.allocators a).alloc
                ((item_size * capacity % WORD + SIZEOF_HEADER) % WORD) 0 w.state).2,
              calls := w.calls ++
                [Call.alloc a ((item_size * capacity % WORD + SIZEOF_HEADER) % WORD) 0],
              mem := store (store (store w.mem (h + OFF_CAPACITY) capacity)
                (h + OFF_LENGTH) 0) (h + OFF_A) a }) := by
        unfold array_init
        dsimp only [uadd, umul]
        rw [hh]
        simp [hne]
      rw [hres]
      simp [array_header, array_length, array_capacity, array_allocator, store,
        SIZEOF_HEADER, OFF_LENGTH, OFF_CAPACITY, OFF_A]
    · intro h0
      unfold array_init
      dsimp only [uadd, umul]
      rw [hh]
      simp [h0]

/-- C8, counterexample: `array_init(2^63, 2, &allocator)` requests 32 bytes, not
`32 + 2^63 * 2`, and returns an array whose header records the capacity 2. -/
theorem array_init_request_wraps :
    (array_init (2 ^ 63) 2 64 main_start).2.calls = [Call.alloc 64 32 0] ∧
    SIZEOF_HEADER + 2 ^ 63 * 2 ≠ 32 ∧
    (array_init (2 ^ 63) 2 64 main_start).1 = 4096 + SIZEOF_HEADER ∧
    array_capacity (array_init (2 ^ 63) 2 64 main_start).1
      (array_init (2 ^ 63) 2 64 main_start).2 = 2 := by
  refine ⟨rfl, by decide, rfl, rfl⟩

/-- C8, amended: when `sizeof(Array_Header) + item_size * capacity` is a machine word,
`array_init` makes one call to the allocator's `alloc`, for exactly that many bytes; when
the call returns a region `h`, the result is `h + sizeof(Array_Header)` and the header at
`h` has `length = 0`, the requested capacity and the given allocator address; when the
call returns null, the result is null. -/
theorem array_init_exact_request {σ : Type} (item_size capacity a : Nat) (w : Heap σ)
    (hfit : SIZEOF_HEADER + item_size * capacity < WORD) :
    (array_init item_size capacity a w).2.calls =
      w.calls ++ [Call.alloc a (SIZEOF_HEADER + item_size * capacity) 0] ∧
    (∀ h, ((w.allocators a).alloc (SIZEOF_HEADER + item_size * capacity) 0 w.state).1 = h →
      (h ≠ 0 →
        (array_init item_size capacity a w).1 = h + SIZEOF_HEADER ∧
        array_header (array_init item_size capacity a w).1 = h ∧
        array_length (array_init item_size capacity a w).1
          (array_init item_size capacity a w).2 = 0 ∧
        array_capacity (array_init item_size capacity a w).1
          (array_init item_size capacity a w).2 = capacity ∧
        array_allocator (array_init item_size capacity a w).1
          (array_init item_size capacity a w).2 = a) ∧
      (h = 0 → (array_init item_size capacity a w).1 = 0)) := by
  have hsize : (item_size * capacity % WORD + SIZEOF_HEADER) % WORD =
      SIZEOF_HEADER + item_size * capacity := by
    rw [Nat.mod_eq_of_lt (show item_size * capacity < WORD by omega),
      Nat.mod_eq_of_lt (by omega), Nat.add_comm]
  have h := array_init_modular item_size capacity a w
  rw [hsize] at h
  exact ⟨h.1, h.2.2⟩

/-- C8, witness: `array(u8, &allocator)` in `main` requests `32 + 1 * 16` bytes and is
served at address 4096 by the host heap. -/
theorem array_init_exact_request_witness :
    (array_init 1 16 64 main_start).2.calls = [Call.alloc 64 (SIZEOF_HEADER + 1 * 16) 0] ∧
    (array_init 1 16 64 main_start).1 = 4096 + SIZEOF_HEADER ∧
    array_header (array_init 1 16 64 main_start).1 = 4096 ∧
    array_length (array_init 1 16 64 main_start).1 (array_init 1 16 64 main_start).2 = 0 ∧
    array_capacity (array_init 1 16 64 main_start).1 (array_init 1 16 64 main_start).2 = 16 ∧
    array_allocator (array_init 1 16 64 main_start).1 (array_init 1 16 64 main_start).2 = 64 :=
  ⟨(array_init_exact_request 1 16 64 main_start (by decide)).1,
    ((array_init_exact_request 1 16 64 main_start (by decide)).2 4096 rfl).1 (by decide)⟩

/-- C9, failing input: an array of 8-byte elements created by `array_init(8, 2, &allocator)`
on a host heap that never fails, then `array_append` of the values 7, 8, 9 given as
4-byte expressions: the length is 3 and the capacity 4, but element 1 reads 0, not 8;
the growth copied `32 + 2 * 4` bytes of the old region, which leaves out element 1. -/
theorem array_append_narrow_value_loses_element :
    (array_append_all 65 8 4 [7, 8, 9] (array_init 8 2 64 main_start).1
        (array_init 8 2 64 main_start).2).map
      (fun r => (array_length r.1 r.2, array_capacity r.1 r.2,
        array_get 8 r.1 0 r.2, array_get 8 r.1 1 r.2, array_get 8 r.1 2 r.2, r.2.calls)) =
      some (3, 4, 7, 0, 9,
        [Call.alloc 64 48 0, Call.alloc 64 48 0, Call.free 64 40 4096 0]) := by
  rfl

/-- Two distinct slots of an array do not overlap. -/
theorem array_slot_disjoint (elem_size a i j : Nat) (hij : j ≠ i) :
    ¬ (array_slot elem_size a i ≤ array_slot elem_size a j ∧
      array_slot elem_size a j < array_slot elem_size a i + elem_size) := by
  unfold array_slot
  rintro ⟨h1, h2⟩
  rcases Nat.lt_or_gt_of_ne hij with hlt | hgt
  · have : (j + 1) * elem_size ≤ i * elem_size := Nat.mul_le_mul_right _ hlt
    rw [Nat.add_mul, Nat.one_mul] at this
    omega
  · have : (i + 1) * elem_size ≤ j * elem_size := Nat.mul_le_mul_right _ hgt
    rw [Nat.add_mul, Nat.one_mul] at this
    omega

/-- C10: on an array of length `n ≥ 1` and for an index `i < n`, `array_remove` leaves
`length = n - 1` and the capacity unchanged; when `i = n - 1` every slot is unchanged;
otherwise slot `i` holds the former value of slot `n - 1` and every other slot is
unchanged. -/
theorem array_remove_spec {σ : Type} (elem_size a i n : Nat) (w : Heap σ)
    (hes : 0 < elem_size) (ha : SIZEOF_HEADER ≤ a) (hlen : array_length a w = n)
    (hn : 1 ≤ n) (hnW : n < WORD) (hi : i < n) :
    array_length a (array_remove elem_size a i w) = n - 1 ∧
    array_capacity a (array_remove elem_size a i w) = array_capacity a w ∧
    (i = n - 1 → ∀ j, array_get elem_size a j (array_remove elem_size a i w) =
      array_get elem_size a j w) ∧
    (i ≠ n - 1 →
      array_get elem_size a i (array_remove elem_size a i w) =
        array_get elem_size a (n - 1) w ∧
      ∀ j, j ≠ i → array_get elem_size a j (array_remove elem_size a i w) =
        array_get elem_size a j w) := by
  have hsub : usub n 1 = n - 1 := usub_of_le hnW hn
  have hlen2 : w.mem (array_header a + OFF_LENGTH) = n := hlen
  have hslot : ∀ j, array_slot elem_size a j ≠ array_header a + OFF_LENGTH := by
    intro j
    unfold array_slot array_header OFF_LENGTH SIZEOF_HEADER
    unfold SIZEOF_HEADER at ha
    omega
  have hslot2 : ∀ j, array_header a + OFF_LENGTH < array_slot elem_size a j := by
    intro j
    unfold array_slot array_header OFF_LENGTH SIZEOF_HEADER
    unfold SIZEOF_HEADER at ha
    omega
  have hcap : array_header a + OFF_CAPACITY ≠ array_header a + OFF_LENGTH := by
    unfold OFF_CAPACITY OFF_LENGTH
    omega
  have hcap2 : array_header a + OFF_CAPACITY < array_slot elem_size a i := by
    unfold array_slot array_header OFF_CAPACITY SIZEOF_HEADER
    unfold SIZEOF_HEADER at ha
    omega
  by_cases hlast : i = n - 1
  · have hres : array_remove elem_size a i w =
        { w with mem := store w.mem (array_header a + OFF_LENGTH) (n - 1) } := by
      unfold array_remove
      simp only [hlen2, hsub, hlast, if_true]
    rw [hres]
    refine ⟨?_, ?_, fun _ j => ?_, fun hne => absurd hlast hne⟩
    · simp [array_length, store]
    · simp [array_capacity, store, hcap]
    · simp [array_get, store, hslot j]
  · have hn2 : n > 1 := by omega
    have hres : array_remove elem_size a i w =
        Heap.mk (memcpy (store w.mem (array_header a + OFF_LENGTH) (n - 1))
          (array_slot elem_size a i) (array_slot elem_size a (n - 1)) elem_size)
          w.allocators w.state w.calls := by
      unfold array_remove
      simp only [hlen2, hsub, hlast, if_false, hn2, if_true]
    rw [hres]
    refine ⟨?_, ?_, fun h => absurd h hlast, fun _ => ⟨?_, fun j hj => ?_⟩⟩
    · have := hslot2 i
      simp only [array_length, memcpy, store]
      rw [if_neg (by omega)]
      simp
    · simp only [array_capacity, memcpy, store]
      rw [if_neg (by omega), if_neg hcap]
    · simp only [array_get, memcpy, store]
      rw [if_pos ⟨le_refl _, by omega⟩, Nat.sub_self, Nat.add_zero, if_neg (hslot _)]
    · simp only [array_get, memcpy, store]
      rw [if_neg (array_slot_disjoint elem_size a i j hj), if_neg (hslot j)]

/-- C10, witness: in `main`, removing index 2 from the contents 0, 1, 2, 3, 4, 5 leaves
the length 5 and the contents 0, 1, 5, 3, 4. -/
theorem array_remove_spec_witness :
    array_length main_appended.1 (array_remove 1 main_appended.1 2 main_appended.2) = 5 ∧
    array_get 1 main_appended.1 2 (array_remove 1 main_appended.1 2 main_appended.2) = 5 ∧
    (List.range 5).map
      (fun j => array_get 1 main_appended.1 j
        (array_remove 1 main_appended.1 2 main_appended.2)) = [0, 1, 5, 3, 4] := by
  have h := array_remove_spec 1 main_appended.1 2 6 main_appended.2
    (by decide) (by decide) rfl (by decide) (by decide) (by decide)
  exact ⟨h.1, (h.2.2.2 (by decide)).1.trans rfl, rfl⟩


/-! ## Facts about `array_ensure_capacity` -/

theorem umul_of_lt {x y : Nat} (h : x * y < WORD) : umul x y = x * y :=
  Nat.mod_eq_of_lt h

/-- Doubling from 0 never reaches a positive capacity. -/
theorem grow_capacity_zero (fuel d : Nat) (hd : 0 < d) : grow_capacity fuel 0 d = none := by
  induction fuel with
  | zero => rfl
  | succ f ih =>
    unfold grow_capacity
    rw [if_pos hd]
    exact ih

/-- The loop ends only at a capacity that is a machine word at or above the desired one, or
at its start value. -/
theorem grow_capacity_ge (fuel : Nat) : ∀ c d r : Nat, grow_capacity fuel c d = some r →
    d ≤ r := by
  induction fuel with
  | zero =>
    intro c d r h
    exact Option.noConfusion h
  | succ f ih =>
    intro c d r h
    unfold grow_capacity at h
    split at h
    · exact ih _ _ _ h
    · have hr : c = r := Option.some.inj h
      omega

/-- The branch of `array_ensure_capacity` that does not grow. -/
theorem array_ensure_capacity_keep {σ : Type} (fuel a item_count item_size : Nat)
    (w : Heap σ) (h : ¬ array_capacity a w < uadd (array_length a w) item_count) :
    array_ensure_capacity fuel a item_count item_size w =
      some (array_header a + SIZEOF_HEADER, w) := by
  unfold array_capacity array_length at h
  unfold array_ensure_capacity
  simp only [h, if_false]

/-- The growing branch of `array_ensure_capacity` when the loop does not end. -/
theorem array_ensure_capacity_loop {σ : Type} (fuel a item_count item_size : Nat)
    (w : Heap σ) (hgrow : array_capacity a w < uadd (array_length a w) item_count)
    (hloop : grow_capacity fuel (umul (array_capacity a w) 2)
      (uadd (array_length a w) item_count) = none) :
    array_ensure_capacity fuel a item_count item_size w = none := by
  unfold array_capacity array_length at hgrow hloop
  unfold array_ensure_capacity
  simp only [hgrow, if_true, hloop]

/-- The growing branch of `array_ensure_capacity` when `alloc` returns null. -/
theorem array_ensure_capacity_grow_fail {σ : Type} (fuel a item_count item_size c : Nat)
    (w : Heap σ) (st : σ)
    (hgrow : array_capacity a w < uadd (array_length a w) item_count)
    (hloop : grow_capacity fuel (umul (array_capacity a w) 2)
      (uadd (array_length a w) item_count) = some c)
    (halloc : (w.allocators (array_allocator a w)).alloc
      (uadd SIZEOF_HEADER (umul c item_size))
      (w.allocators (array_allocator a w)).context w.state = (0, st)) :
    array_ensure_capacity fuel a item_count item_size w =
      some (0, Heap.mk w.mem w.allocators st
        (w.calls ++ [Call.alloc (array_allocator a w)
          (uadd SIZEOF_HEADER (umul c item_size))
          (w.allocators (array_allocator a w)).context])) := by
  unfold array_capacity array_length at hgrow hloop
  unfold array_allocator at halloc
  unfold array_ensure_capacity
  simp only [hgrow, if_true, hloop, halloc]
  rfl

/-- The growing branch of `array_ensure_capacity` when `alloc` returns a region: the
live prefix of the old region is copied, then the new capacity is stored. -/
theorem array_ensure_capacity_grow_ok {σ : Type} (fuel a item_count item_size c : Nat)
    (w : Heap σ) (new_h : Nat) (st : σ)
    (hgrow : array_capacity a w < uadd (array_length a w) item_count)
    (hloop : grow_capacity fuel (umul (array_capacity a w) 2)
      (uadd (array_length a w) item_count) = some c)
    (halloc : (w.allocators (array_allocator a w)).alloc
      (uadd SIZEOF_HEADER (umul c item_size))
      (w.allocators (array_allocator a w)).context w.state = (new_h, st))
    (hne : new_h ≠ 0) :
    ∃ w' rest, array_ensure_capacity fuel a item_count item_size w =
        some (new_h + SIZEOF_HEADER, w') ∧
      w'.mem = store (memcpy w.mem new_h (array_header a)
        (uadd SIZEOF_HEADER (umul (array_length a w) item_size)))
        (new_h + OFF_CAPACITY) c ∧
      w'.allocators = w.allocators ∧
      w'.calls = w.calls ++ Call.alloc (array_allocator a w)
        (uadd SIZEOF_HEADER (umul c item_size))
        (w.allocators (array_allocator a w)).context :: rest := by
  unfold array_capacity array_length at hgrow hloop
  unfold array_allocator at halloc
  unfold array_ensure_capacity
  simp only [hgrow, if_true, hloop, halloc, bne_iff_ne, ne_eq, hne, not_false_eq_true]
  unfold array_length array_allocator
  split
  · exact ⟨_, _, rfl, rfl, rfl, by rw [List.append_assoc]; rfl⟩
  · exact ⟨_, [], rfl, rfl, rfl, rfl⟩


theorem array_header_add (h : Nat) : array_header (h + SIZEOF_HEADER) = h := by
  unfold array_header
  omega

/-! ## Claims on `array_ensure_capacity` and `array_pop_back` -/

/-- C18, failing input: on the array made by `array_init(1, 0, &allocator)` (capacity 0),
`array_ensure_capacity(a, 1, 1)` must grow, and its doubling loop has not ended after any
number of tests: the call does not return. -/
theorem array_ensure_capacity_zero_capacity_diverges :
    array_capacity (array_init 1 0 64 main_start).1 (array_init 1 0 64 main_start).2 = 0 ∧
    ∀ fuel, array_ensure_capacity fuel (array_init 1 0 64 main_start).1 1 1
      (array_init 1 0 64 main_start).2 = none := by
  refine ⟨rfl, fun fuel => ?_⟩
  apply array_ensure_capacity_loop
  · decide
  · have h1 : umul (array_capacity (array_init 1 0 64 main_start).1
        (array_init 1 0 64 main_start).2) 2 = 0 := by decide
    have h2 : uadd (array_length (array_init 1 0 64 main_start).1
        (array_init 1 0 64 main_start).2) 1 = 1 := by decide
    rw [h1, h2]
    exact grow_capacity_zero fuel 1 (by decide)


/-- C12, counterexample: on the array of two 4-byte elements at capacity 2,
`array_ensure_capacity(a, 2^62, 4)` grows to the capacity `2^63` and the allocation
succeeds, but the new region is requested with 32 bytes (`32 + 2^63 * 4` modulo `2^64`),
not with `32 + 2^63 * 4`. -/
theorem array_ensure_capacity_request_wraps :
    array_capacity full_array.1 full_array.2 = 2 ∧
    array_length full_array.1 full_array.2 = 2 ∧
    full_array.2.calls = [Call.alloc 64 40 0] ∧
    (array_ensure_capacity 65 full_array.1 (2 ^ 62) 4 full_array.2).map
      (fun r => (r.1, array_capacity r.1 r.2, r.2.calls)) =
      some (4136 + SIZEOF_HEADER, 2 ^ 63,
        [Call.alloc 64 40 0, Call.alloc 64 32 0, Call.free 64 40 4096 0]) ∧
    SIZEOF_HEADER + 2 ^ 63 * 4 ≠ 32 := by
  refine ⟨rfl, rfl, rfl, rfl, by decide⟩

/-- C12, amended: when `array_ensure_capacity` grows an array (the capacity is below
`length + item_count`, the doubling loop ends at `c`), `sizeof(Array_Header) +
c * item_size` is a machine word, and `alloc` returns a region, the call returns the
payload pointer of that region, whose array has the same length, the same allocator
reference and the same value in every slot `i < length` as before, and records the
capacity `c`; the region was requested with exactly `sizeof(Array_Header) + c * item_size`
bytes from the allocator recorded in the header, with that allocator's context. -/
theorem array_ensure_capacity_grow_preserves {σ : Type}
    (fuel a item_count item_size c : Nat) (w : Heap σ) (new_h : Nat) (st : σ)
    (hgrow : array_capacity a w < uadd (array_length a w) item_count)
    (hloop : grow_capacity fuel (umul (array_capacity a w) 2)
      (uadd (array_length a w) item_count) = some c)
    (hfit : SIZEOF_HEADER + c * item_size < WORD)
    (halloc : (w.allocators (array_allocator a w)).alloc
      (SIZEOF_HEADER + c * item_size)
      (w.allocators (array_allocator a w)).context w.state = (new_h, st))
    (hne : new_h ≠ 0) (hes : 0 < item_size) (ha : SIZEOF_HEADER ≤ a)
    (hlive : SIZEOF_HEADER + array_length a w * item_size < WORD) :
    ∃ w' rest, array_ensure_capacity fuel a item_count item_size w =
        some (new_h + SIZEOF_HEADER, w') ∧
      array_length (new_h + SIZEOF_HEADER) w' = array_length a w ∧
      array_allocator (new_h + SIZEOF_HEADER) w' = array_allocator a w ∧
      array_capacity (new_h + SIZEOF_HEADER) w' = c ∧
      (∀ i, i < array_length a w →
        array_get item_size (new_h + SIZEOF_HEADER) i w' = array_get item_size a i w) ∧
      w'.calls = w.calls ++ Call.alloc (array_allocator a w)
        (SIZEOF_HEADER + c * item_size)
        (w.allocators (array_allocator a w)).context :: rest := by
  have hnew : uadd SIZEOF_HEADER (umul c item_size) = SIZEOF_HEADER + c * item_size := by
    unfold uadd
    rw [umul_of_lt (by omega), Nat.mod_eq_of_lt hfit]
  rw [← hnew] at halloc ⊢
  obtain ⟨w', rest, hres, hmem, -, hcalls⟩ :=
    array_ensure_capacity_grow_ok fuel a item_count item_size c w new_h st hgrow hloop
      halloc hne
  have hold : uadd SIZEOF_HEADER (umul (array_length a w) item_size) =
      SIZEOF_HEADER + array_length a w * item_size := by
    unfold uadd
    rw [umul_of_lt (by omega), Nat.mod_eq_of_lt hlive]
  rw [hold] at hmem
  refine ⟨w', rest, hres, ?_, ?_, ?_, ?_, hcalls⟩
  · show w'.mem (array_header (new_h + SIZEOF_HEADER) + OFF_LENGTH) =
      w.mem (array_header a + OFF_LENGTH)
    rw [array_header_add, hmem]
    unfold store memcpy OFF_LENGTH OFF_CAPACITY SIZEOF_HEADER
    rw [if_neg (by omega), if_pos (by omega)]
    congr 1
    omega
  · show w'.mem (array_header (new_h + SIZEOF_HEADER) + OFF_A) =
      w.mem (array_header a + OFF_A)
    rw [array_header_add, hmem]
    unfold store memcpy OFF_A OFF_CAPACITY SIZEOF_HEADER
    rw [if_neg (by omega), if_pos (by omega)]
    congr 1
    omega
  · show w'.mem (array_header (new_h + SIZEOF_HEADER) + OFF_CAPACITY) = c
    rw [array_header_add, hmem]
    simp [store]
  · intro i hi
    have hlt : i * item_size + item_size ≤ array_length a w * item_size := by
      have := Nat.mul_le_mul_right item_size hi
      rw [Nat.succ_mul] at this
      exact this
    show w'.mem (array_slot item_size (new_h + SIZEOF_HEADER) i) =
      w.mem (array_slot item_size a i)
    rw [hmem]
    unfold store memcpy array_slot array_header OFF_CAPACITY SIZEOF_HEADER
    unfold SIZEOF_HEADER at ha
    rw [if_neg (by omega), if_pos (by omega)]
    congr 1
    omega

/-- C12, witness: the array of two 4-byte elements 7, 8 at capacity 2 grows into the region
at 4136 with capacity 4, requested with `32 + 4 * 4` bytes. -/
theorem array_ensure_capacity_grow_preserves_witness :
    ∃ w' rest, array_ensure_capacity 65 full_array.1 1 4 full_array.2 =
        some (4136 + SIZEOF_HEADER, w') ∧
      array_length (4136 + SIZEOF_HEADER) w' = array_length full_array.1 full_array.2 ∧
      array_allocator (4136 + SIZEOF_HEADER) w' =
        array_allocator full_array.1 full_array.2 ∧
      array_capacity (4136 + SIZEOF_HEADER) w' = 4 ∧
      (∀ i, i < array_length full_array.1 full_array.2 →
        array_get 4 (4136 + SIZEOF_HEADER) i w' = array_get 4 full_array.1 i full_array.2) ∧
      w'.calls = full_array.2.calls ++ Call.alloc (array_allocator full_array.1 full_array.2)
        (SIZEOF_HEADER + 4 * 4)
        (full_array.2.allocators (array_allocator full_array.1 full_array.2)).context ::
          rest :=
  array_ensure_capacity_grow_preserves 65 full_array.1 1 4 4 full_array.2 4136 4184
    (by decide) (by decide) (by decide) rfl (by decide) (by decide) (by decide) (by decide)

/-- C13: when `array_ensure_capacity` must grow (the capacity is below
`length + item_count`, the doubling loop ends at `c`) and `alloc` returns null, the call
returns null, the only call made through the allocator is that `alloc` (no `free`), and the
data memory is unchanged: the old header (length, capacity, allocator) and every element
are as before. -/
theorem array_ensure_capacity_alloc_failure {σ : Type}
    (fuel a item_count item_size c : Nat) (w : Heap σ) (st : σ)
    (hgrow : array_capacity a w < uadd (array_length a w) item_count)
    (hloop : grow_capacity fuel (umul (array_capacity a w) 2)
      (uadd (array_length a w) item_count) = some c)
    (halloc : (w.allocators (array_allocator a w)).alloc
      (uadd SIZEOF_HEADER (umul c item_size))
      (w.allocators (array_allocator a w)).context w.state = (0, st)) :
    ∃ w', array_ensure_capacity fuel a item_count item_size w = some (0, w') ∧
      w'.calls = w.calls ++ [Call.alloc (array_allocator a w)
        (uadd SIZEOF_HEADER (umul c item_size))
        (w.allocators (array_allocator a w)).context] ∧
      w'.mem = w.mem ∧
      array_length a w' = array_length a w ∧
      array_capacity a w' = array_capacity a w ∧
      array_allocator a w' = array_allocator a w ∧
      ∀ elem_size i, array_get elem_size a i w' = array_get elem_size a i w :=
  ⟨_, array_ensure_capacity_grow_fail fuel a item_count item_size c w st hgrow hloop halloc,
    rfl, rfl, rfl, rfl, rfl, fun _ _ => rfl⟩

/-- C13, witness: the full array of two elements on an exhausted host heap. -/
theorem array_ensure_capacity_alloc_failure_witness :
    ∃ w', array_ensure_capacity 65 full_array.1 1 4 full_array_exhausted = some (0, w') ∧
      w'.calls = full_array_exhausted.calls ++
        [Call.alloc (array_allocator full_array.1 full_array_exhausted)
          (uadd SIZEOF_HEADER (umul 4 4))
          (full_array_exhausted.allocators
            (array_allocator full_array.1 full_array_exhausted)).context] ∧
      w'.mem = full_array_exhausted.mem ∧
      array_length full_array.1 w' = array_length full_array.1 full_array_exhausted ∧
      array_capacity full_array.1 w' = array_capacity full_array.1 full_array_exhausted ∧
      array_allocator full_array.1 w' = array_allocator full_array.1 full_array_exhausted ∧
      ∀ elem_size i, array_get elem_size full_array.1 i w' =
        array_get elem_size full_array.1 i full_array_exhausted :=
  array_ensure_capacity_alloc_failure 65 full_array.1 1 4 4 full_array_exhausted 4136
    (by decide) (by decide) rfl

/-- C14: when `capacity ≥ length + item_count`, `array_ensure_capacity` returns the payload
pointer it was given and the state it was given: no call to `alloc` or `free` is made and
the length, the capacity and all elements are unchanged. -/
theorem array_ensure_capacity_enough {σ : Type} (fuel a item_count item_size : Nat)
    (w : Heap σ) (ha : SIZEOF_HEADER ≤ a)
    (hcap : array_length a w + item_count ≤ array_capacity a w) :
    array_ensure_capacity fuel a item_count item_size w = some (a, w) := by
  have hle : uadd (array_length a w) item_count ≤ array_length a w + item_count :=
    Nat.mod_le _ _
  rw [array_ensure_capacity_keep fuel a item_count item_size w (by omega)]
  unfold array_header
  rw [Nat.sub_add_cancel ha]

/-- C14, witness: in `main` after the six appends (length 6, capacity 16), room for one
more element needs no growth. -/
theorem array_ensure_capacity_enough_witness :
    array_ensure_capacity 65 main_appended.1 1 1 main_appended.2 =
      some (main_appended.1, main_appended.2) :=
  array_ensure_capacity_enough 65 main_appended.1 1 1 main_appended.2 (by decide)
    (by decide)

/-- C15: `array_pop_back` decrements the length in `size_t` arithmetic with no test: from a
length `n ≥ 1` it leaves `n - 1`, from 0 it leaves `2^64 - 1`; the capacity and every slot
are unchanged. -/
theorem array_pop_back_spec {σ : Type} (a n : Nat) (w : Heap σ)
    (ha : SIZEOF_HEADER ≤ a) (hlen : array_length a w = n) (hnW : n < WORD) :
    array_length a (array_pop_back a w) = (n + WORD - 1) % WORD ∧
    (1 ≤ n → array_length a (array_pop_back a w) = n - 1) ∧
    (n = 0 → array_length a (array_pop_back a w) = WORD - 1) ∧
    array_capacity a (array_pop_back a w) = array_capacity a w ∧
    ∀ elem_size j, array_get elem_size a j (array_pop_back a w) =
      array_get elem_size a j w := by
  have hlen2 : w.mem (array_header a + OFF_LENGTH) = n := hlen
  have hl : array_length a (array_pop_back a w) = (n + WORD - 1) % WORD := by
    unfold array_length array_pop_back
    simp [store, hlen2, usub]
  refine ⟨hl, fun h1 => ?_, fun h0 => ?_, ?_, fun elem_size j => ?_⟩
  · rw [hl]
    rw [WORD_eq] at *
    omega
  · rw [hl, h0]
    rw [WORD_eq]
  · unfold array_capacity array_pop_back
    simp [store, OFF_CAPACITY, OFF_LENGTH]
  · unfold array_get array_pop_back array_slot array_header
    simp only [store]
    unfold SIZEOF_HEADER at ha
    rw [if_neg (by unfold OFF_LENGTH SIZEOF_HEADER; omega)]

/-- C15, witness: in `main`, popping the contents 0, 1, 5, 3, 4 leaves the length 4 and
the contents 0, 1, 5, 3. -/
theorem array_pop_back_spec_witness :
    array_length main_removed.1 (array_pop_back main_removed.1 main_removed.2) = 4 ∧
    (List.range 4).map (fun j => array_get 1 main_removed.1 j
      (array_pop_back main_removed.1 main_removed.2)) = [0, 1, 5, 3] := by
  have h := array_pop_back_spec main_removed.1 5 main_removed.2 (by decide) rfl (by decide)
  exact ⟨h.2.1 (by decide), rfl⟩


/-! ## Invariants -/

/-- One arena call keeps `offset ≤ size` and leaves `base` and `size` alone. -/
theorem arena_step_invariant (a : Arena) (op : ArenaOp) (h : a.offset ≤ a.size) :
    (arena_step a op).offset ≤ (arena_step a op).size ∧
    (arena_step a op).base = a.base ∧ (arena_step a op).size = a.size := by
  have haligned : ∀ size alignment,
      (arena_alloc_aligned a size alignment).2.offset ≤
        (arena_alloc_aligned a size alignment).2.size ∧
      (arena_alloc_aligned a size alignment).2.base = a.base ∧
      (arena_alloc_aligned a size alignment).2.size = a.size := by
    intro size alignment
    unfold arena_alloc_aligned
    dsimp only
    split
    · exact ⟨h, rfl, rfl⟩
    · rename_i hle
      exact ⟨by simpa using hle, rfl, rfl⟩
  have halloc : ∀ size, (arena_alloc size a).2.offset ≤ (arena_alloc size a).2.size ∧
      (arena_alloc size a).2.base = a.base ∧ (arena_alloc size a).2.size = a.size := by
    intro size
    unfold arena_alloc
    split
    · exact ⟨h, rfl, rfl⟩
    · exact haligned size DEFAULT_ALIGNMENT
  cases op with
  | alloc size => exact halloc size
  | alloc_aligned size alignment => exact haligned size alignment
  | free size ptr => exact ⟨h, rfl, rfl⟩
  | free_all => exact ⟨Nat.zero_le _, rfl, rfl⟩

theorem arena_run_invariant (ops : List ArenaOp) : ∀ a : Arena, a.offset ≤ a.size →
    (arena_run a ops).offset ≤ (arena_run a ops).size ∧
    (arena_run a ops).base = a.base ∧ (arena_run a ops).size = a.size := by
  induction ops with
  | nil => exact fun a h => ⟨h, rfl, rfl⟩
  | cons op ops ih =>
    intro a h
    obtain ⟨h1, h2, h3⟩ := arena_step_invariant a op h
    obtain ⟨k1, k2, k3⟩ := ih (arena_step a op) h1
    exact ⟨k1, k2.trans h2, k3.trans h3⟩

/-- C16: every arena reached from `arena_init(buffer, size)` by a sequence of `arena_alloc`,
`arena_alloc_aligned` (any size, any alignment), `arena_free` and `arena_free_all` has
`0 ≤ offset ≤ size`, and its `base` and `size` are those of the start. -/
theorem arena_reachable_invariant (buffer size : Nat) (ops : List ArenaOp) :
    0 ≤ (arena_run (arena_init buffer size) ops).offset ∧
    (arena_run (arena_init buffer size) ops).offset ≤ size ∧
    (arena_run (arena_init buffer size) ops).base = buffer ∧
    (arena_run (arena_init buffer size) ops).size = size := by
  obtain ⟨h1, h2, h3⟩ :=
    arena_run_invariant ops (arena_init buffer size) (Nat.zero_le _)
  have hs : (arena_init buffer size).size = size := rfl
  have hb : (arena_init buffer size).base = buffer := rfl
  rw [hs] at h3
  rw [hb] at h2
  rw [h3] at h1
  exact ⟨Nat.zero_le _, h1, h2, h3⟩

/-- What a call of `array_ensure_capacity` that returns a non-null pointer leaves: a
pointer past a header, the same length, and a capacity that is at least the desired one
and the old one. -/
theorem array_ensure_capacity_post {σ : Type} (fuel a item_count item_size r : Nat)
    (w w' : Heap σ)
    (hres : array_ensure_capacity fuel a item_count item_size w = some (r, w'))
    (hr : r ≠ 0) (hlive : SIZEOF_HEADER + array_length a w * item_size < WORD) :
    SIZEOF_HEADER ≤ r ∧ array_length r w' = array_length a w ∧
    uadd (array_length a w) item_count ≤ array_capacity r w' ∧
    array_capacity a w ≤ array_capacity r w' := by
  by_cases hgrow : array_capacity a w < uadd (array_length a w) item_count
  · cases hloop : grow_capacity fuel (umul (array_capacity a w) 2)
        (uadd (array_length a w) item_count) with
    | none =>
      rw [array_ensure_capacity_loop fuel a item_count item_size w hgrow hloop] at hres
      exact Option.noConfusion hres
    | some c =>
      have hge := grow_capacity_ge fuel _ _ c hloop
      rcases halloc : (w.allocators (array_allocator a w)).alloc
          (uadd SIZEOF_HEADER (umul c item_size))
          (w.allocators (array_allocator a w)).context w.state with ⟨new_h, st⟩
      by_cases hne : new_h = 0
      · subst hne
        rw [array_ensure_capacity_grow_fail fuel a item_count item_size c w st hgrow hloop
          halloc] at hres
        have h0 : (0 : Nat) = r := congrArg Prod.fst (Option.some.inj hres)
        exact absurd h0.symm hr
      · obtain ⟨w2, rest, hres2, hmem, -, -⟩ :=
          array_ensure_capacity_grow_ok fuel a item_count item_size c w new_h st hgrow hloop
            halloc hne
        rw [hres2] at hres
        have hpair := Option.some.inj hres
        have hr2 : new_h + SIZEOF_HEADER = r := congrArg Prod.fst hpair
        have hw2 : w2 = w' := congrArg Prod.snd hpair
        subst hr2
        subst hw2
        have hold : uadd SIZEOF_HEADER (umul (array_length a w) item_size) =
            SIZEOF_HEADER + array_length a w * item_size := by
          unfold uadd
          rw [umul_of_lt (by omega), Nat.mod_eq_of_lt hlive]
        rw [hold] at hmem
        have hcap : array_capacity (new_h + SIZEOF_HEADER) w2 = c := by
          show w2.mem (array_header (new_h + SIZEOF_HEADER) + OFF_CAPACITY) = c
          rw [array_header_add, hmem]
          simp [store]
        have hlen : array_length (new_h + SIZEOF_HEADER) w2 = array_length a w := by
          show w2.mem (array_header (new_h + SIZEOF_HEADER) + OFF_LENGTH) =
            w.mem (array_header a + OFF_LENGTH)
          rw [array_header_add, hmem]
          unfold store memcpy OFF_LENGTH OFF_CAPACITY SIZEOF_HEADER
          rw [if_neg (by omega), if_pos (by omega)]
          congr 1
          omega
        rw [hcap, hlen]
        exact ⟨Nat.le_add_left _ _, rfl, hge, by omega⟩
  · rw [array_ensure_capacity_keep fuel a item_count item_size w hgrow] at hres
    have hpair := Option.some.inj hres
    have hr2 : array_header a + SIZEOF_HEADER = r := congrArg Prod.fst hpair
    have hw2 : w = w' := congrArg Prod.snd hpair
    subst hr2
    subst hw2
    have hlen : array_length (array_header a + SIZEOF_HEADER) w = array_length a w := by
      unfold array_length
      rw [array_header_add]
    have hcap : array_capacity (array_header a + SIZEOF_HEADER) w = array_capacity a w := by
      unfold array_capacity
      rw [array_header_add]
    rw [hlen, hcap]
    exact ⟨Nat.le_add_left _ _, rfl, by omega, le_refl _⟩

/-- Decrementing a nonzero length in `size_t` arithmetic does not increase it. -/
theorem usub_one_le (n : Nat) (hn : 1 ≤ n) : usub n 1 ≤ n := by
  unfold usub
  have h : (n + WORD - 1) % WORD = (n - 1) % WORD := by
    have : n + WORD - 1 = n - 1 + WORD := by omega
    rw [this, Nat.add_mod_right]
  rw [h]
  exact Nat.le_trans (Nat.mod_le _ _) (Nat.sub_le _ _)

/-- C17: `length ≤ capacity` holds after a successful `array_init`, and after a successful
`array_ensure_capacity`, an `array_append` that returns, an `array_remove` at an index
below the length and an `array_pop_back` on a non-empty array, each on an array that
satisfied it (for `array_append` even without that). -/
theorem array_length_le_capacity {σ : Type} :
    (∀ (item_size capacity al : Nat) (w : Heap σ),
      (array_init item_size capacity al w).1 ≠ 0 →
      array_length (array_init item_size capacity al w).1
          (array_init item_size capacity al w).2 ≤
        array_capacity (array_init item_size capacity al w).1
          (array_init item_size capacity al w).2) ∧
    (∀ (fuel a item_count item_size r : Nat) (w w' : Heap σ),
      array_ensure_capacity fuel a item_count item_size w = some (r, w') → r ≠ 0 →
      SIZEOF_HEADER + array_length a w * item_size < WORD →
      array_length a w ≤ array_capacity a w →
      array_length r w' ≤ array_capacity r w') ∧
    (∀ (fuel elem_size v_size a v a1 ref : Nat) (w w1 : Heap σ),
      array_append fuel elem_size v_size a v w = some (a1, ref, w1) →
      SIZEOF_HEADER + array_length a w * v_size < WORD →
      array_length a1 w1 ≤ array_capacity a1 w1) ∧
    (∀ (elem_size a i : Nat) (w : Heap σ), SIZEOF_HEADER ≤ a →
      i < array_length a w → array_length a w ≤ array_capacity a w →
      array_length a (array_remove elem_size a i w) ≤
        array_capacity a (array_remove elem_size a i w)) ∧
    (∀ (a : Nat) (w : Heap σ), 1 ≤ array_length a w →
      array_length a w ≤ array_capacity a w →
      array_length a (array_pop_back a w) ≤ array_capacity a (array_pop_back a w)) := by
  refine ⟨?_, ?_, ?_, ?_, ?_⟩
  · intro item_size capacity al w hne
    unfold array_init at hne ⊢
    dsimp only at hne ⊢
    split
    · simp [array_length, array_capacity, array_header, store, SIZEOF_HEADER, OFF_LENGTH,
        OFF_CAPACITY, OFF_A]
    · rename_i h0
      rw [if_neg h0] at hne
      exact absurd rfl hne
  · intro fuel a item_count item_size r w w' hres hr hlive hinv
    obtain ⟨-, hlen, -, hcap⟩ :=
      array_ensure_capacity_post fuel a item_count item_size r w w' hres hr hlive
    omega
  · intro fuel elem_size v_size a v a1 ref w w1 hres hlive
    unfold array_append at hres
    cases hens : array_ensure_capacity fuel a 1 v_size w with
    | none =>
      rw [hens] at hres
      exact Option.noConfusion hres
    | some p =>
      obtain ⟨a2, w2⟩ := p
      rw [hens] at hres
      dsimp only at hres
      by_cases h0 : a2 = 0
      · rw [if_pos h0] at hres
        exact Option.noConfusion hres
      · rw [if_neg h0] at hres
        obtain ⟨ha2, hlen, hdes, -⟩ :=
          array_ensure_capacity_post fuel a 1 v_size a2 w w2 hens h0 hlive
        have hpair := Option.some.inj hres
        have e1 : a2 = a1 := congrArg Prod.fst hpair
        have e3 : Heap.mk _ w2.allocators w2.state w2.calls = w1 :=
          congrArg (fun t => t.2.2) hpair
        subst e1
        rw [← e3]
        have hslot : ∀ k, array_slot elem_size a2 k ≠ array_header a2 + OFF_LENGTH := by
          intro k
          unfold array_slot array_header OFF_LENGTH SIZEOF_HEADER
          unfold SIZEOF_HEADER at ha2
          omega
        have hslot2 : ∀ k, array_header a2 + OFF_CAPACITY ≠ array_slot elem_size a2 k := by
          intro k
          unfold array_slot array_header OFF_CAPACITY SIZEOF_HEADER
          unfold SIZEOF_HEADER at ha2
          omega
        have hcl : array_header a2 + OFF_CAPACITY ≠ array_header a2 + OFF_LENGTH := by
          unfold OFF_CAPACITY OFF_LENGTH
          omega
        have hlen2 : w2.mem (array_header a2 + OFF_LENGTH) = array_length a w := hlen
        have hcap2 : uadd (array_length a w) 1 ≤ w2.mem (array_header a2 + OFF_CAPACITY) :=
          hdes
        simp only [array_length, array_capacity, store, if_true, if_neg hcl,
          if_neg (hslot2 _), if_neg (Ne.symm (hslot _)), hlen2]
        exact hcap2
  · intro elem_size a i w ha hi hinv
    have hn : 1 ≤ array_length a w := by omega
    have hle := usub_one_le (array_length a w) hn
    have hcl : array_header a + OFF_CAPACITY ≠ array_header a + OFF_LENGTH := by
      unfold OFF_CAPACITY OFF_LENGTH
      omega
    have hslot : ∀ k, ¬ (array_slot elem_size a k ≤ array_header a + OFF_LENGTH ∧
        array_header a + OFF_LENGTH < array_slot elem_size a k + elem_size) := by
      intro k
      unfold array_slot array_header OFF_LENGTH SIZEOF_HEADER
      unfold SIZEOF_HEADER at ha
      omega
    have hslot2 : ∀ k, ¬ (array_slot elem_size a k ≤ array_header a + OFF_CAPACITY ∧
        array_header a + OFF_CAPACITY < array_slot elem_size a k + elem_size) := by
      intro k
      unfold array_slot array_header OFF_CAPACITY SIZEOF_HEADER
      unfold SIZEOF_HEADER at ha
      omega
    unfold array_length at hle
    unfold array_length array_capacity at hinv ⊢
    unfold array_remove
    dsimp only
    split
    · simp only [store, if_true, if_neg hcl]
      omega
    · split
      · simp only [memcpy, store, if_neg (hslot _), if_neg (hslot2 _), if_true, if_neg hcl]
        omega
      · exact hinv
  · intro a w hn hinv
    have hle := usub_one_le (array_length a w) hn
    have hcl : array_header a + OFF_CAPACITY ≠ array_header a + OFF_LENGTH := by
      unfold OFF_CAPACITY OFF_LENGTH
      omega
    unfold array_length at hle
    unfold array_length array_capacity at hinv ⊢
    unfold array_pop_back
    simp only [store, if_true, if_neg hcl]
    omega

/-- C17, witness: in `main`, the invariant holds after `array(u8, &allocator)`, after
`array_remove(my_array, 2)` and after `array_pop_back(my_array)`. -/
theorem array_length_le_capacity_witness :
    array_length (array_init 1 16 64 main_start).1 (array_init 1 16 64 main_start).2 ≤
      array_capacity (array_init 1 16 64 main_start).1 (array_init 1 16 64 main_start).2 ∧
    array_length main_appended.1 (array_remove 1 main_appended.1 2 main_appended.2) ≤
      array_capacity main_appended.1 (array_remove 1 main_appended.1 2 main_appended.2) ∧
    array_length main_removed.1 (array_pop_back main_removed.1 main_removed.2) ≤
      array_capacity main_removed.1 (array_pop_back main_removed.1 main_removed.2) :=
  ⟨array_length_le_capacity.1 1 16 64 main_start (by decide),
    array_length_le_capacity.2.2.2.1 1 main_appended.1 2 main_appended.2 (by decide)
      (by decide) (by decide),
    array_length_le_capacity.2.2.2.2 main_removed.1 main_removed.2 (by decide) (by decide)⟩

/-- C19, failing input: the array made by `array_init(4, 4, &allocator)` lives in the
region at 4096, requested with `32 + 4 * 4 = 48` bytes; `array_ensure_capacity(a, 5, 4)`
on it (length 0) grows and calls `free` with that region and the size 32. -/
theorem array_ensure_capacity_frees_live_size :
    (array_init 4 4 64 main_start).2.calls = [Call.alloc 64 48 0] ∧
    array_header (array_init 4 4 64 main_start).1 = 4096 ∧
    array_capacity (array_init 4 4 64 main_start).1 (array_init 4 4 64 main_start).2 = 4 ∧
    (array_ensure_capacity 65 (array_init 4 4 64 main_start).1 5 4
        (array_init 4 4 64 main_start).2).map (fun r => r.2.calls) =
      some [Call.alloc 64 48 0, Call.alloc 64 64 0, Call.free 64 32 4096 0] := by
  refine ⟨rfl, rfl, rfl, rfl⟩

/-- C20, failing input: with the `Arena` object at address 512 and the `Allocator` built by
`arena_alloc_init(&arena)`, whose context is 512, `array_init(1, 16, &al)` calls `alloc`
with the context 0; the arena at 512 is not touched and no region is returned. -/
theorem array_init_ignores_allocator_context :
    (arena_start.allocators 64).context = 512 ∧
    (array_init 1 16 64 arena_start).2.calls = [Call.alloc 64 48 0] ∧
    (array_init 1 16 64 arena_start).2.state 512 = some (arena_init 8192 1024) ∧
    (array_init 1 16 64 arena_start).1 = 0 := by
  refine ⟨rfl, rfl, rfl, rfl⟩


end Mtlib
